import Mathlib

/-!
Verification of the gettext-tool invocation pipeline of `verboselib`
(`verboselib/cli/gettext_tools.py`), as a shallow embedding in Lean 4.

Strings are modelled as Lean `String` (a wrapper around `List Char`); the
text-level helpers operate on `List Char`.  `splitlinesList` models Python
`str.splitlines` (no keepends), including the two-character `"\r\n"`
boundary and the additional one-character boundaries Python recognises.
-/

namespace Verboselib

/-- The line-boundary characters of Python `str.splitlines`. -/
def isLineBreak (c : Char) : Bool :=
  c = '\n' || c = '\r' || c = '\x0b' || c = '\x0c' ||
  c = '\x1c' || c = '\x1d' || c = '\x1e' || c = '\x85' ||
  c = '\u2028' || c = '\u2029'

/-- Prepend a character to the first line of a line list (starting a new
line when there is none). -/
def consLine (c : Char) : List (List Char) → List (List Char)
  | [] => [[c]]
  | l :: ls => (c :: l) :: ls

/-- Fuelled worker for `splitlinesList`; a fuel of at least the length
of the input is always enough, since every step consumes at least one
character. -/
def splitlinesFuel : Nat → List Char → List (List Char)
  | 0, _ => []
  | _ + 1, [] => []
  | fuel + 1, c :: cs =>
    if c = '\r' then
      match cs with
      | '\n' :: cs2 => [] :: splitlinesFuel fuel cs2
      | _ => [] :: splitlinesFuel fuel cs
    else if isLineBreak c then
      [] :: splitlinesFuel fuel cs
    else
      consLine c (splitlinesFuel fuel cs)

/-- Python `str.splitlines()` on a character list: every boundary ends a
line, `"\r\n"` counts as a single boundary, and a trailing boundary does
not create a final empty line (`"".splitlines() == []`,
`"\n".splitlines() == [""]`). -/
def splitlinesList (cs : List Char) : List (List Char) :=
  splitlinesFuel cs.length cs

/-- Python `"\n".join(lines)` on character lists. -/
def joinLines : List (List Char) → List Char
  | [] => []
  | [l] => l
  | l :: ls => l ++ '\n' :: joinLines ls

/-- `strip_translations_header` from `gettext_tools.py`:
`"\n".join(itertools.dropwhile(len, translations.splitlines()))`.
`itertools.dropwhile(len, ...)` drops leading lines while they are
non-empty (truthy length). -/
def strip_translations_header (translations : String) : String :=
  ⟨joinLines ((splitlinesList translations.data).dropWhile (fun l => !l.isEmpty))⟩

/-- Modelled from the spec: a platform path object.  The collaborator
`stringify_path` (in the text utilities module, which is not among the
sources) converts it to its textual argument form; we model a path by
that textual form. -/
structure Path where
  str : String
deriving DecidableEq

/-- Modelled from the spec: `stringify_path` converts a platform path
object to its textual argument form. -/
def stringify_path (p : Path) : String := p.str

/-- Modelled from the spec: `normalize_eols` (in the text utilities
module, which is not among the sources) canonicalizes all line-ending
variants of captured output to the single convention `"\n"`: each
`"\r\n"` pair and each lone `"\r"` becomes `"\n"`. -/
def normalize_eols_list : List Char → List Char
  | [] => []
  | '\r' :: '\n' :: cs => '\n' :: normalize_eols_list cs
  | c :: cs =>
    (if c = '\r' then '\n' else c) :: normalize_eols_list cs

/-- String-level wrapper for `normalize_eols_list`. -/
def normalize_eols (s : String) : String :=
  ⟨normalize_eols_list s.data⟩

/-- `GETTEXT_TOOLS_STATUS_OK` from `gettext_tools.py`. -/
def GETTEXT_TOOLS_STATUS_OK : Int := 0

/-- `GETTEXT_TOOLS_EXECUTABLES` from `gettext_tools.py`, in source order. -/
def GETTEXT_TOOLS_EXECUTABLES : List String :=
  ["xgettext", "msguniq", "msgmerge", "msgattrib", "msgfmt"]

/-- The message of the `OSError` raised by `validate_gettext_tools_exist`
for a missing executable (`\x27` is an ASCII apostrophe). -/
def missing_tool_message (executable_name : String) : String :=
  "cannot find executable \x27" ++ executable_name ++
  "\x27: make sure you have GNU gettext tools 0.15 or newer installed"

/-- The loop body of `validate_gettext_tools_exist`: walk the executable
names in order and fail on the first one that `find_executable` cannot
resolve.  `find_executable` lives in the utilities module (not among the
sources), so it is a parameter here. -/
def validate_tools_loop (find_executable : String → Option String) :
    List String → Except String Unit
  | [] => Except.ok ()
  | executable_name :: rest =>
    if find_executable executable_name = none then
      Except.error (missing_tool_message executable_name)
    else
      validate_tools_loop find_executable rest

/-- `validate_gettext_tools_exist` from `gettext_tools.py`: raises
`OSError` for the first executable of `GETTEXT_TOOLS_EXECUTABLES` that
`find_executable` cannot resolve, otherwise returns `None`. -/
def validate_gettext_tools_exist (find_executable : String → Option String) :
    Except String Unit :=
  validate_tools_loop find_executable GETTEXT_TOOLS_EXECUTABLES

/-- The payload of the `RuntimeError` raised by `get_gettext_tool_output`:
Python formats it as
`failed to run gettext tool <tool_name> (status=<status>): <errors>`. -/
structure ToolExecutionFailed where
  tool_name : String
  status : Int
  errors : String
deriving DecidableEq

/-- The observable outcome of a successful `get_gettext_tool_output`
call: the text passed to the warning sink `print_err` (if any) and the
returned content. -/
structure ToolOutput where
  warned : Option String
  content : String
deriving DecidableEq

/-- `get_gettext_tool_output` from `gettext_tools.py`.  The process
runner `popen_wrapper` (in the utilities module, not among the sources)
returns the triple `(content, errors, status)`; here that triple is a
parameter so every classifier input can be considered.  Python indexes
`args[0]` for the tool name only on the raising path; we use `headD`
(callers always pass a non-empty argument list). -/
def get_gettext_tool_output (args : List String)
    (content errors : String) (status : Int) :
    Except ToolExecutionFailed ToolOutput :=
  if errors ≠ "" then
    if status ≠ GETTEXT_TOOLS_STATUS_OK then
      Except.error ⟨args.headD "", status, errors⟩
    else
      Except.ok ⟨some errors, if content ≠ "" then normalize_eols content else content⟩
  else
    Except.ok ⟨none, if content ≠ "" then normalize_eols content else content⟩

/-- `_make_xgettext_args` from `gettext_tools.py`. -/
def _make_xgettext_args (source_file_path : Path) (domain : String)
    (keywords : List String) (no_wrap no_location : Bool)
    (extra_args : List String) : List String :=
  let args := ["xgettext", "-d", domain, "--from-code=UTF-8",
               "--add-comments=Translators", "--output=-"]
  let args := args ++ keywords.map (fun x => "--keyword=" ++ x)
  let args := if no_wrap then args ++ ["--no-wrap"] else args
  let args := if no_location then args ++ ["--no-location"] else args
  let args := if !extra_args.isEmpty then args ++ extra_args else args
  args ++ [stringify_path source_file_path]

/-- `_make_msguniq_args` from `gettext_tools.py`. -/
def _make_msguniq_args (pot_file_path : Path)
    (no_wrap no_location : Bool) (extra_args : List String) : List String :=
  let args := ["msguniq", "--to-code=utf-8"]
  let args := if no_wrap then args ++ ["--no-wrap"] else args
  let args := if no_location then args ++ ["--no-location"] else args
  let args := if !extra_args.isEmpty then args ++ extra_args else args
  args ++ [stringify_path pot_file_path]

/-- `_make_msgmerge_args` from `gettext_tools.py`. -/
def _make_msgmerge_args (po_file_path pot_file_path : Path)
    (no_wrap no_location : Bool) (extra_args : List String) : List String :=
  let args := ["msgmerge", "-q", "--previous"]
  let args := if no_wrap then args ++ ["--no-wrap"] else args
  let args := if no_location then args ++ ["--no-location"] else args
  let args := if !extra_args.isEmpty then args ++ extra_args else args
  args ++ [stringify_path po_file_path] ++ [stringify_path pot_file_path]

/-- `_make_msgattrib_args` from `gettext_tools.py`. -/
def _make_msgattrib_args (po_file_path : Path)
    (no_wrap no_location : Bool) (extra_args : List String) : List String :=
  let args := ["msgattrib", "--no-obsolete"]
  let args := if no_wrap then args ++ ["--no-wrap"] else args
  let args := if no_location then args ++ ["--no-location"] else args
  let args := if !extra_args.isEmpty then args ++ extra_args else args
  let po_file_path_str := stringify_path po_file_path
  args ++ ["-o", po_file_path_str, po_file_path_str]

/-- `_make_msgfmt_args` from `gettext_tools.py`. -/
def _make_msgfmt_args (mo_file_path po_file_path : Path)
    (fuzzy : Bool) (extra_args : List String) : List String :=
  let args := ["msgfmt", "--check-format"]
  let args := if fuzzy then args ++ ["-f"] else args
  let args := if !extra_args.isEmpty then args ++ extra_args else args
  args ++ ["-o", stringify_path mo_file_path, stringify_path po_file_path]

/-! ## Theorems -/

/-- C1: `get_gettext_tool_output` raises `ToolExecutionFailed` iff the
stderr text is non-empty and the status is non-zero; the error carries
the tool name (first argument), the exit status and the stderr text;
non-empty stderr with status zero is sent to the warning sink and the
(normalized) stdout is returned; non-zero status with empty stderr is
treated as success. -/
theorem get_gettext_tool_output_classification :
    ∀ (tool : String) (rest : List String) (content errors : String) (status : Int),
    get_gettext_tool_output (tool :: rest) content errors status =
      (if errors ≠ "" ∧ status ≠ 0 then
        Except.error ⟨tool, status, errors⟩
      else
        Except.ok ⟨if errors = "" then none else some errors,
                   if content = "" then content else normalize_eols content⟩) := by
  intro tool rest content errors status
  by_cases he : errors = "" <;> by_cases hs : status = 0 <;>
    by_cases hc : content = "" <;>
    simp [get_gettext_tool_output, GETTEXT_TOOLS_STATUS_OK, he, hs, hc]

/-- The loop of `validate_gettext_tools_exist` fails on exactly the first
name of the list that does not resolve. -/
theorem validate_tools_loop_spec (fe : String → Option String) :
    ∀ names : List String, validate_tools_loop fe names =
      (match names.find? (fun n => (fe n).isNone) with
       | some n => Except.error (missing_tool_message n)
       | none => Except.ok ()) := by
  intro names
  induction names with
  | nil => rfl
  | cons name rest ih =>
    by_cases h : fe name = none
    · simp [validate_tools_loop, List.find?, h]
    · have hf : (fe name).isNone = false := by
        simp [Option.isNone_iff_eq_none, h, Option.isSome_iff_ne_none]
      simp [validate_tools_loop, List.find?, h, hf, ih]

/-- C9: the toolchain availability check fails with an error naming the
first executable, in the fixed order of `GETTEXT_TOOLS_EXECUTABLES`,
that `find_executable` cannot resolve, and the message carries the
minimum-version hint; when every executable resolves it returns
silently. -/
theorem validate_gettext_tools_exist_spec :
    (∀ fe : String → Option String,
      validate_gettext_tools_exist fe =
        (match GETTEXT_TOOLS_EXECUTABLES.find? (fun n => (fe n).isNone) with
         | some n => Except.error (missing_tool_message n)
         | none => Except.ok ()))
    ∧ (∀ n : String, missing_tool_message n =
        "cannot find executable \x27" ++ n ++
        "\x27: make sure you have GNU gettext tools 0.15 or newer installed")
    ∧ GETTEXT_TOOLS_EXECUTABLES =
        ["xgettext", "msguniq", "msgmerge", "msgattrib", "msgfmt"] := by
  refine ⟨fun fe => validate_tools_loop_spec fe GETTEXT_TOOLS_EXECUTABLES, fun n => rfl, rfl⟩

/-- C3: every one of the five builders produces a list of the shape
`structured flags ++ extra raw arguments ++ trailing path block`, so the
extras come after all structured flags and the path-valued arguments
come last. -/
theorem builders_order_invariant :
    (∀ (p : Path) (d : String) (kws : List String) (nw nl : Bool) (ex : List String),
      _make_xgettext_args p d kws nw nl ex =
        (["xgettext", "-d", d, "--from-code=UTF-8", "--add-comments=Translators",
          "--output=-"] ++ kws.map (fun x => "--keyword=" ++ x) ++
          (if nw then ["--no-wrap"] else []) ++
          (if nl then ["--no-location"] else [])) ++ ex ++ [stringify_path p])
    ∧ (∀ (p : Path) (nw nl : Bool) (ex : List String),
      _make_msguniq_args p nw nl ex =
        (["msguniq", "--to-code=utf-8"] ++
          (if nw then ["--no-wrap"] else []) ++
          (if nl then ["--no-location"] else [])) ++ ex ++ [stringify_path p])
    ∧ (∀ (po pot : Path) (nw nl : Bool) (ex : List String),
      _make_msgmerge_args po pot nw nl ex =
        (["msgmerge", "-q", "--previous"] ++
          (if nw then ["--no-wrap"] else []) ++
          (if nl then ["--no-location"] else [])) ++ ex ++
          [stringify_path po, stringify_path pot])
    ∧ (∀ (p : Path) (nw nl : Bool) (ex : List String),
      _make_msgattrib_args p nw nl ex =
        (["msgattrib", "--no-obsolete"] ++
          (if nw then ["--no-wrap"] else []) ++
          (if nl then ["--no-location"] else [])) ++ ex ++
          ["-o", stringify_path p, stringify_path p])
    ∧ (∀ (mo po : Path) (fz : Bool) (ex : List String),
      _make_msgfmt_args mo po fz ex =
        (["msgfmt", "--check-format"] ++ (if fz then ["-f"] else [])) ++ ex ++
          ["-o", stringify_path mo, stringify_path po]) := by
  refine ⟨?_, ?_, ?_, ?_, ?_⟩
  · intro p d kws nw nl ex
    cases nw <;> cases nl <;> cases ex <;> simp [_make_xgettext_args]
  · intro p nw nl ex
    cases nw <;> cases nl <;> cases ex <;> simp [_make_msguniq_args]
  · intro po pot nw nl ex
    cases nw <;> cases nl <;> cases ex <;> simp [_make_msgmerge_args]
  · intro p nw nl ex
    cases nw <;> cases nl <;> cases ex <;> simp [_make_msgattrib_args]
  · intro mo po fz ex
    cases fz <;> cases ex <;> simp [_make_msgfmt_args]

/-- C6: the extraction builder for domain `messages`, keywords `["_"]`,
`no_wrap` and `no_location` set and no extras yields exactly the claimed
argument list ending in the stringified path, and in general emits one
`--keyword=<k>` token per configured keyword. -/
theorem xgettext_args_scenario :
    (∀ p : Path, _make_xgettext_args p "messages" ["_"] true true [] =
      ["xgettext", "-d", "messages", "--from-code=UTF-8",
       "--add-comments=Translators", "--output=-", "--keyword=_",
       "--no-wrap", "--no-location", stringify_path p])
    ∧ (∀ (p : Path) (d : String) (kws : List String) (nw nl : Bool)
        (ex : List String), ∃ pre post,
        _make_xgettext_args p d kws nw nl ex =
          pre ++ kws.map (fun x => "--keyword=" ++ x) ++ post) := by
  constructor
  · intro p; rfl
  · intro p d kws nw nl ex
    refine ⟨["xgettext", "-d", d, "--from-code=UTF-8",
      "--add-comments=Translators", "--output=-"],
      (if nw then ["--no-wrap"] else []) ++
        (if nl then ["--no-location"] else []) ++ ex ++ [stringify_path p], ?_⟩
    cases nw <;> cases nl <;> cases ex <;> simp [_make_xgettext_args]

/-- C7: the obsolete-removal builder always ends with `-o` followed by
the same stringified catalog path twice (in-place rewrite); the clean
invocation for `/tmp/x.po` is exactly the claimed list. -/
theorem msgattrib_args_scenario :
    (_make_msgattrib_args ⟨"/tmp/x.po"⟩ false false [] =
      ["msgattrib", "--no-obsolete", "-o", "/tmp/x.po", "/tmp/x.po"])
    ∧ (∀ (p : Path) (nw nl : Bool) (ex : List String), ∃ pre,
        _make_msgattrib_args p nw nl ex =
          pre ++ ["-o", stringify_path p, stringify_path p]) := by
  constructor
  · rfl
  · intro p nw nl ex
    refine ⟨["msgattrib", "--no-obsolete"] ++
      (if nw then ["--no-wrap"] else []) ++
      (if nl then ["--no-location"] else []) ++ ex, ?_⟩
    cases nw <;> cases nl <;> cases ex <;> simp [_make_msgattrib_args]

/-- C8: the compile builder always emits `--check-format`, emits `-f` in
the flag block exactly when `fuzzy` is set, and appends the output
binary path and then the input catalog path last; the scenario for
`out.mo` from `in.po` with `fuzzy` yields exactly the claimed list. -/
theorem msgfmt_args_scenario :
    (_make_msgfmt_args ⟨"out.mo"⟩ ⟨"in.po"⟩ true [] =
      ["msgfmt", "--check-format", "-f", "-o", "out.mo", "in.po"])
    ∧ (∀ (mo po : Path) (fz : Bool) (ex : List String),
        _make_msgfmt_args mo po fz ex =
          ["msgfmt", "--check-format"] ++ (if fz then ["-f"] else []) ++ ex ++
            ["-o", stringify_path mo, stringify_path po]) := by
  constructor
  · rfl
  · intro mo po fz ex
    cases fz <;> cases ex <;> simp [_make_msgfmt_args]

/-- C2 counterexample: header stripping on
`"#comment1\n#comment2\n\nmsgid \"a\"\nmsgstr \"\"\n"` does not yield
`"msgid \"a\"\nmsgstr \"\"\n"`. -/
theorem strip_translations_header_roundtrip_cex :
    (strip_translations_header "#comment1\n#comment2\n\nmsgid \"a\"\nmsgstr \"\"\n" ==
      "msgid \"a\"\nmsgstr \"\"\n") = false := by decide

/-- C2 (amended): header stripping drops the leading non-empty lines but
keeps the first blank line (as a leading newline) and loses the trailing
newline: on `"#comment1\n#comment2\n\nmsgid \"a\"\nmsgstr \"\"\n"` it
yields exactly `"\nmsgid \"a\"\nmsgstr \"\""`. -/
theorem strip_translations_header_roundtrip :
    strip_translations_header "#comment1\n#comment2\n\nmsgid \"a\"\nmsgstr \"\"\n" =
      "\nmsgid \"a\"\nmsgstr \"\"" := by decide

/-- C4: on an input whose lines are all non-empty (no blank line),
`strip_translations_header` drops the entire content and returns the
empty string. -/
theorem strip_translations_header_no_blank_line (s : String)
    (h : ∀ l ∈ splitlinesList s.data, l ≠ []) :
    strip_translations_header s = "" := by
  have hd : (splitlinesList s.data).dropWhile (fun l => !l.isEmpty) = [] := by
    rw [List.dropWhile_eq_nil_iff]
    intro l hl
    simpa using h l hl
  unfold strip_translations_header
  rw [hd]
  rfl

/-- C4 witness: `"abc\ndef"` has no blank line and is stripped to `""`. -/
theorem strip_translations_header_no_blank_line_witness :
    strip_translations_header "abc\ndef" = "" :=
  strip_translations_header_no_blank_line "abc\ndef" (by decide)

/-! ## Properties of `splitlinesList` and `joinLines` -/

theorem splitlinesFuel_cr_nil (f : Nat) :
    splitlinesFuel (f + 1) ['\r'] = [] :: splitlinesFuel f [] := rfl

theorem splitlinesFuel_crlf (f : Nat) (cs : List Char) :
    splitlinesFuel (f + 1) ('\r' :: '\n' :: cs) = [] :: splitlinesFuel f cs := rfl

theorem splitlinesFuel_cr_cons (f : Nat) (c2 : Char) (cs2 : List Char)
    (hn : c2 ≠ '\n') :
    splitlinesFuel (f + 1) ('\r' :: c2 :: cs2) =
      [] :: splitlinesFuel f (c2 :: cs2) := by
  simp only [splitlinesFuel]
  rw [if_pos trivial]
  split
  · rename_i cs3 heq
    injection heq with ha _
    exact absurd ha hn
  · rfl

theorem splitlinesFuel_break (f : Nat) (c : Char) (cs : List Char)
    (hb : isLineBreak c = true) (hr : c ≠ '\r') :
    splitlinesFuel (f + 1) (c :: cs) = [] :: splitlinesFuel f cs := by
  simp only [splitlinesFuel]
  rw [if_neg hr, if_pos hb]

theorem splitlinesFuel_chr (f : Nat) (c : Char) (cs : List Char)
    (hb : isLineBreak c = false) :
    splitlinesFuel (f + 1) (c :: cs) = consLine c (splitlinesFuel f cs) := by
  have hr : ¬ c = '\r' := by
    rintro rfl
    simp [isLineBreak] at hb
  simp only [splitlinesFuel]
  rw [if_neg hr, if_neg (by simp [hb])]

theorem splitlinesFuel_congr :
    ∀ (f1 f2 : Nat) (cs : List Char), cs.length ≤ f1 → cs.length ≤ f2 →
      splitlinesFuel f1 cs = splitlinesFuel f2 cs := by
  intro f1
  induction f1 with
  | zero =>
    intro f2 cs h1 _
    have hcs : cs = [] := List.eq_nil_of_length_eq_zero (Nat.le_zero.mp h1)
    subst hcs
    cases f2 <;> rfl
  | succ f1 ih =>
    intro f2 cs h1 h2
    cases cs with
    | nil => cases f2 <;> rfl
    | cons c cs =>
      cases f2 with
      | zero => simp at h2
      | succ f2 =>
        have hl1 : cs.length ≤ f1 := by simpa using h1
        have hl2 : cs.length ≤ f2 := by simpa using h2
        by_cases hr : c = '\r'
        · subst hr
          cases cs with
          | nil =>
            rw [splitlinesFuel_cr_nil, splitlinesFuel_cr_nil,
              ih f2 [] (by simp) (by simp)]
          | cons c2 cs2 =>
            have hl1a : cs2.length ≤ f1 := le_trans (Nat.le_succ _) hl1
            have hl2a : cs2.length ≤ f2 := le_trans (Nat.le_succ _) hl2
            by_cases hn : c2 = '\n'
            · subst hn
              rw [splitlinesFuel_crlf, splitlinesFuel_crlf, ih f2 cs2 hl1a hl2a]
            · rw [splitlinesFuel_cr_cons f1 c2 cs2 hn,
                splitlinesFuel_cr_cons f2 c2 cs2 hn, ih f2 (c2 :: cs2) hl1 hl2]
        · by_cases hb : isLineBreak c = true
          · rw [splitlinesFuel_break f1 c cs hb hr,
              splitlinesFuel_break f2 c cs hb hr, ih f2 cs hl1 hl2]
          · have hb2 : isLineBreak c = false := by simpa using hb
            rw [splitlinesFuel_chr f1 c cs hb2, splitlinesFuel_chr f2 c cs hb2,
              ih f2 cs hl1 hl2]

theorem splitlinesList_crlf (cs : List Char) :
    splitlinesList ('\r' :: '\n' :: cs) = [] :: splitlinesList cs := by
  simp only [splitlinesList, List.length_cons]
  rw [splitlinesFuel_crlf]
  rw [splitlinesFuel_congr (cs.length + 1) cs.length cs (Nat.le_succ _)
    (Nat.le_refl _)]

theorem splitlinesList_cons_break (c : Char) (cs : List Char)
    (hb : isLineBreak c = true)
    (hcr : c = '\r' → cs.head? ≠ some '\n') :
    splitlinesList (c :: cs) = [] :: splitlinesList cs := by
  by_cases hr : c = '\r'
  · subst hr
    cases cs with
    | nil => rfl
    | cons c2 cs2 =>
      have hn : c2 ≠ '\n' := fun h => hcr rfl (by simp [h])
      simp only [splitlinesList, List.length_cons]
      rw [splitlinesFuel_cr_cons _ _ _ hn]
  · simp only [splitlinesList, List.length_cons]
    rw [splitlinesFuel_break _ _ _ hb hr]

theorem splitlinesList_cons_chr (c : Char) (cs : List Char)
    (hb : isLineBreak c = false) :
    splitlinesList (c :: cs) = consLine c (splitlinesList cs) := by
  simp only [splitlinesList, List.length_cons]
  rw [splitlinesFuel_chr _ _ _ hb]

theorem consLine_ne_nil (c : Char) (ls : List (List Char)) :
    consLine c ls ≠ [] := by
  cases ls <;> simp [consLine]

theorem splitlinesList_cons_ne_nil (c : Char) (cs : List Char) :
    splitlinesList (c :: cs) ≠ [] := by
  by_cases hr : c = '\r'
  · subst hr
    cases cs with
    | nil => simp [splitlinesList, splitlinesFuel]
    | cons c2 cs2 =>
      by_cases hn : c2 = '\n'
      · subst hn
        simp only [splitlinesList, List.length_cons]
        rw [splitlinesFuel_crlf]
        simp
      · simp only [splitlinesList, List.length_cons]
        rw [splitlinesFuel_cr_cons _ _ _ hn]
        simp
  · by_cases hb : isLineBreak c = true
    · simp only [splitlinesList, List.length_cons]
      rw [splitlinesFuel_break _ _ _ hb hr]
      simp
    · have hb2 : isLineBreak c = false := by simpa using hb
      simp only [splitlinesList, List.length_cons]
      rw [splitlinesFuel_chr _ _ _ hb2]
      exact consLine_ne_nil _ _

theorem joinLines_cons_cons (l l2 : List Char) (ls : List (List Char)) :
    joinLines (l :: l2 :: ls) = l ++ '\n' :: joinLines (l2 :: ls) := rfl

theorem joinLines_cons_head (c : Char) (l : List Char) (ls : List (List Char)) :
    joinLines ((c :: l) :: ls) = c :: joinLines (l :: ls) := by
  cases ls <;> rfl

theorem splitlinesFuel_no_breaks :
    ∀ (f : Nat) (cs : List Char), ∀ l ∈ splitlinesFuel f cs, ∀ c ∈ l,
      isLineBreak c = false := by
  intro f
  induction f with
  | zero => intro cs l hl; simp [splitlinesFuel] at hl
  | succ f ih =>
    intro cs l hl c hc
    cases cs with
    | nil => simp [splitlinesFuel] at hl
    | cons a cs =>
      by_cases hr : a = '\r'
      · subst hr
        cases cs with
        | nil =>
          rw [splitlinesFuel_cr_nil] at hl
          rcases List.mem_cons.mp hl with h | h
          · subst h; simp at hc
          · exact ih [] l h c hc
        | cons c2 cs2 =>
          by_cases hn : c2 = '\n'
          · subst hn
            rw [splitlinesFuel_crlf] at hl
            rcases List.mem_cons.mp hl with h | h
            · subst h; simp at hc
            · exact ih cs2 l h c hc
          · rw [splitlinesFuel_cr_cons f c2 cs2 hn] at hl
            rcases List.mem_cons.mp hl with h | h
            · subst h; simp at hc
            · exact ih (c2 :: cs2) l h c hc
      · by_cases hb : isLineBreak a = true
        · rw [splitlinesFuel_break f a cs hb hr] at hl
          rcases List.mem_cons.mp hl with h | h
          · subst h; simp at hc
          · exact ih cs l h c hc
        · have hb2 : isLineBreak a = false := by simpa using hb
          rw [splitlinesFuel_chr f a cs hb2] at hl
          cases hsp : splitlinesFuel f cs with
          | nil =>
            rw [hsp] at hl
            simp [consLine] at hl
            subst hl
            rw [List.mem_singleton.mp hc]
            exact hb2
          | cons l0 ls0 =>
            rw [hsp] at hl
            simp only [consLine] at hl
            rcases List.mem_cons.mp hl with h | h
            · subst h
              rcases List.mem_cons.mp hc with h2 | h2
              · rw [h2]; exact hb2
              · exact ih cs l0 (by rw [hsp]; exact List.mem_cons_self _ _) c h2
            · exact ih cs l (by rw [hsp]; exact List.mem_cons_of_mem _ h) c hc

theorem splitlinesList_no_breaks (cs : List Char) :
    ∀ l ∈ splitlinesList cs, ∀ c ∈ l, isLineBreak c = false :=
  splitlinesFuel_no_breaks cs.length cs

theorem joinLines_mem (ls : List (List Char))
    (h : ∀ l ∈ ls, ∀ c ∈ l, isLineBreak c = false) :
    ∀ c ∈ joinLines ls, c = '\n' ∨ isLineBreak c = false := by
  induction ls with
  | nil => intro c hc; simp [joinLines] at hc
  | cons l ls ih =>
    cases ls with
    | nil =>
      intro c hc
      exact Or.inr (h l (by simp) c (by simpa [joinLines] using hc))
    | cons l2 ls2 =>
      intro c hc
      rw [joinLines_cons_cons] at hc
      rcases List.mem_append.mp hc with h1 | h1
      · exact Or.inr (h l (by simp) c h1)
      · rcases List.mem_cons.mp h1 with h2 | h2
        · exact Or.inl h2
        · exact ih (fun l3 hl3 => h l3 (List.mem_cons_of_mem _ hl3)) c h2

/-- C10: the output of `strip_translations_header` never contains a
carriage-return character: the input is split on every line-ending
variant and the surviving lines are rejoined with `"\n"` only. -/
theorem strip_translations_header_no_cr :
    ∀ s : String,
      (strip_translations_header s).data.all (fun c => !(c == '\r')) = true := by
  intro s
  rw [List.all_eq_true]
  intro c hc
  have hc2 : c ∈ joinLines
      ((splitlinesList s.data).dropWhile (fun l => !l.isEmpty)) := hc
  have hlines : ∀ l ∈ (splitlinesList s.data).dropWhile (fun l => !l.isEmpty),
      ∀ c2 ∈ l, isLineBreak c2 = false := by
    intro l hl c2 hc3
    exact splitlinesList_no_breaks s.data l
      (List.dropWhile_subset _ hl) c2 hc3
  rcases joinLines_mem _ hlines c hc2 with h | h
  · rw [h]; decide
  · have hne : c ≠ '\r' := by
      rintro rfl
      simp [isLineBreak] at h
    simp [hne]

theorem joinLines_splitlinesList (cs : List Char)
    (hbr : ∀ c ∈ cs, isLineBreak c = true → c = '\n')
    (hlast : cs.getLast? ≠ some '\n') :
    joinLines (splitlinesList cs) = cs := by
  induction cs with
  | nil => rfl
  | cons c cs ih =>
    by_cases hb : isLineBreak c = true
    · have hcn : c = '\n' := hbr c (by simp) hb
      subst hcn
      have hcsne : cs ≠ [] := by
        intro h
        subst h
        simp at hlast
      rw [splitlinesList_cons_break '\n' cs (by decide)
        (fun h => absurd h (by decide))]
      obtain ⟨l, ls, hls⟩ : ∃ l ls, splitlinesList cs = l :: ls := by
        cases hcs2 : splitlinesList cs with
        | nil =>
          cases cs with
          | nil => exact absurd rfl hcsne
          | cons a b => exact absurd hcs2 (splitlinesList_cons_ne_nil a b)
        | cons l ls => exact ⟨l, ls, rfl⟩
      have hgl : cs.getLast? ≠ some '\n' := by
        cases cs with
        | nil => simp
        | cons a b => rw [List.getLast?_cons_cons] at hlast; exact hlast
      have hjoin : joinLines (splitlinesList cs) = cs :=
        ih (fun c2 hc2 hb2 => hbr c2 (by simp [hc2]) hb2) hgl
      rw [hls, joinLines_cons_cons, ← hls, hjoin]
      rfl
    · have hb2 : isLineBreak c = false := by simpa using hb
      rw [splitlinesList_cons_chr c cs hb2]
      cases hcs : splitlinesList cs with
      | nil =>
        have hnil : cs = [] := by
          cases cs with
          | nil => rfl
          | cons a b => exact absurd hcs (splitlinesList_cons_ne_nil a b)
        subst hnil
        rfl
      | cons l ls =>
        have hgl : cs.getLast? ≠ some '\n' := by
          cases cs with
          | nil => simp
          | cons a b => rw [List.getLast?_cons_cons] at hlast; exact hlast
        have hjoin : joinLines (splitlinesList cs) = cs :=
          ih (fun c2 hc2 hb3 => hbr c2 (by simp [hc2]) hb3) hgl
        show joinLines (consLine c (l :: ls)) = c :: cs
        rw [show consLine c (l :: ls) = (c :: l) :: ls from rfl,
          joinLines_cons_head, ← hcs, hjoin]

/-- A string is in already-stripped form when it is empty, or when it
starts with a newline (its first line is blank), all its line breaks are
plain newlines, and it does not end with a newline. -/
def alreadyStripped (s : String) : Prop :=
  s = "" ∨ (s.data.head? = some '\n' ∧
    (∀ c ∈ s.data, isLineBreak c = true → c = '\n') ∧
    s.data.getLast? ≠ some '\n')

/-- C5 counterexample: the first line of `"\n"` is blank (not a
non-empty line), yet `strip_translations_header "\n"` is `""`, not the
input unchanged. -/
theorem strip_translations_header_idempotent_cex :
    (splitlinesList ("\n" : String).data).head? = some [] ∧
    (strip_translations_header "\n" == "\n") = false := by
  exact ⟨by decide, by decide⟩

/-- C5 (amended): `strip_translations_header` returns its input
unchanged on already-stripped strings: the empty string, and every
string that starts with a newline, whose line breaks are all plain
newlines, and that does not end with a newline.  (Strings with a
trailing newline are not fixed points: the join drops it, as the
counterexample shows.) -/
theorem strip_translations_header_already_stripped (s : String)
    (h : alreadyStripped s) : strip_translations_header s = s := by
  rcases h with h | ⟨hh, hbr, hl⟩
  · subst h; rfl
  · obtain ⟨rest, hdata⟩ : ∃ rest, s.data = '\n' :: rest := by
      cases hd : s.data with
      | nil => rw [hd] at hh; simp at hh
      | cons a b =>
        rw [hd] at hh
        simp at hh
        exact ⟨b, by rw [hh]⟩
    have hsplit : splitlinesList s.data = [] :: splitlinesList rest := by
      rw [hdata]
      exact splitlinesList_cons_break '\n' rest (by decide)
        (fun hx => absurd hx (by decide))
    have hdrop : (splitlinesList s.data).dropWhile (fun l => !l.isEmpty) =
        splitlinesList s.data := by
      rw [hsplit]
      exact List.dropWhile_cons_of_neg (by simp)
    have hjoin : joinLines (splitlinesList s.data) = s.data :=
      joinLines_splitlinesList s.data hbr hl
    unfold strip_translations_header
    rw [hdrop, hjoin]

/-- C5 witness: `"\nmsgid x"` is already stripped and is returned
unchanged. -/
theorem strip_translations_header_already_stripped_witness :
    strip_translations_header "\nmsgid x" = "\nmsgid x" :=
  strip_translations_header_already_stripped "\nmsgid x"
    (Or.inr ⟨by decide, by decide, by decide⟩)

end Verboselib
